import Mathlib

/-!
Verification development for `get_zappi_history.py` (repository `mec`).

The script fetches a day's (or month's) worth of raw energy samples for each
Zappi device, normalizes each raw record into a report row, feeds per-channel
watt values into time-weighted `PowerMeter` accumulators, and renders the
result as a table or a JSON object.

The embedding below models:
  * a raw record as an association list from field name to a rational value
    (Python dicts have unique keys; lookups return the first binding);
  * Python `del rec[key]` on a key that may be absent as an `Option`-valued
    operation (`pyDelAll`), since Python raises `KeyError` there;
  * Python `ZeroDivisionError` in the per-minute conversion `value / volts * 4`
    as an `Option` failure (`convWatts`);
  * Python `int()` applied to a nonnegative or negative quotient as truncation
    toward zero (`pyInt`);
  * the `PowerMeter` class (imported from `mec.power_meter`, whose source is
    not part of this tree) from the spec's description of its contract;
  * the dynamically-typed `Day` object of `main` with `PyVal` (its fields hold
    ints from `time.localtime()` but strings once set from a CLI option), and
    Python `TypeError` on `str + int` in the month branch as an `Option`
    failure (`zappiDispatch`).
-/

/-- A raw sample record: an association list from field name to numeric value
(field order as produced by the sample source; keys are unique in Python). -/
abbrev Rec := List (String × ℚ)

/-- First-binding lookup in an association list, as Python `rec[key]` /
`key in rec` on a dict. -/
def assocFind {α : Type} : List (String × α) → String → Option α
  | [], _ => none
  | (k, v) :: rest, key => if k = key then some v else assocFind rest key

/-- Removal of a key, as Python `del rec[key]` on a dict (removes the unique
binding; on a uniquely-keyed list, removing every binding is the same). -/
def pyErase : Rec → String → Rec
  | [], _ => []
  | p :: rest, k => if p.1 = k then pyErase rest k else p :: pyErase rest k

/-- Python `del rec[key]` for each key in turn; `none` models the `KeyError`
raised when a key is absent. -/
def pyDelAll : List String → Rec → Option Rec
  | [], rec => some rec
  | k :: ks, rec =>
    if (assocFind rec k).isSome then pyDelAll ks (pyErase rec k) else none

/-- Python `int()` on a rational: truncation toward zero. -/
def pyInt (q : ℚ) : ℤ := if 0 ≤ q then ⌊q⌋ else ⌈q⌉

/-- Modelled from the spec: the class `mec.power_meter.PowerMeter` is imported
by `get_zappi_history.py` but its source is not under `src/`.  Per the spec
(§3, §4.1) its running state is the pair (elapsed-weighted sum, last
timestamp); `add_value(power, timestamp)` contributes
`power * (timestamp - last_timestamp)` to the sum and advances the timestamp.
A fresh meter holds sum 0; its initial timestamp is irrelevant because
`load_day` immediately seeds every meter with a zero-power sample. -/
structure PowerMeter where
  total : ℚ
  lastTime : ℚ
deriving DecidableEq

/-- Modelled from the spec: a fresh `PowerMeter()`. -/
def PowerMeter.init : PowerMeter := { total := 0, lastTime := 0 }

/-- Modelled from the spec: `PowerMeter.add_value(power, timestamp)`. -/
def PowerMeter.add_value (pm : PowerMeter) (power t : ℚ) : PowerMeter :=
  { total := pm.total + power * (t - pm.lastTime), lastTime := t }

/-- One cell of a report row: `None`, the `'{hh}:{mm}'` time label, the
integer duration, a displayed integer watt value, or a string (the `'Totals'`
label and the rendered meter totals). -/
inductive Cell where
  | none
  | time (hour minute : ℚ)
  | dur (d : ℚ)
  | int (n : ℤ)
  | str (s : String)
deriving DecidableEq

/-- Python truthiness of a cell value (`None` and `''` and `0` are falsy; a
time label `'{hh}:{mm}'` is a nonempty string, hence truthy). -/
def Cell.truthy : Cell → Bool
  | Cell.none => false
  | Cell.time _ _ => true
  | Cell.dur d => decide (d ≠ 0)
  | Cell.int n => decide (n ≠ 0)
  | Cell.str s => decide (s ≠ "")

/-- `FIELD_NAMES`: raw channel key to display name. -/
def FIELD_NAMES : List (String × String) :=
  [("gep", "Generated"),
   ("gen", "Generated Negative"),
   ("h1d", "Phase 1 diverted"),
   ("h2d", "Phase 2 diverted"),
   ("h3d", "Phase 3 diverted"),
   ("h1b", "Zappi imported"),
   ("imp", "Imported"),
   ("exp", "Exported")]

/-- `headers` in `load_day`: the enumerated channel keys, in order. -/
def headerKeys : List String :=
  ["imp", "exp", "gen", "gep", "h1d", "h2d", "h3d", "h1b"]

/-- Display name of a channel key (`FIELD_NAMES[key]` if present, else the
key itself), as in the `table_headers` loop of `load_day`. -/
def displayName (k : String) : String := (assocFind FIELD_NAMES k).getD k

/-- `table_headers` as built by `load_day`. -/
def tableHeaders : List String :=
  "Time" :: "Duration" :: headerKeys.map displayName

/-- The duplicate-secondary-meter drop of `load_day` (lines 202-205): if both
the canonical key and its secondary companion are present and their values are
equal, the secondary key is deleted. -/
def dropDup (canon second : String) (rec : Rec) : Rec :=
  match assocFind rec canon, assocFind rec second with
  | some a, some b => if a = b then pyErase rec second else rec
  | _, _ => rec

/-- Conditional extraction of a field with a default (`hr`/`min` handling in
`load_day`): returns the value (or the default) and the record with the field
deleted when it was present. -/
def takeField (k : String) (dflt : ℚ) (rec : Rec) : ℚ × Rec :=
  match assocFind rec k with
  | some v => (v, pyErase rec k)
  | none => (dflt, rec)

/-- The voltage a record yields: `v1 / 10` when `v1` is present, else the
default `1` (lines 201, 218-219). -/
def effVolts (rec : Rec) : ℚ :=
  match assocFind rec "v1" with
  | some v => v / 10
  | none => 1

/-- Voltage extraction step of `load_day` (lines 218-222): compute the
voltage, then delete `v1` and `frq` when present (deleting an absent key is
guarded by `in`, hence never fails). -/
def takeVolts (rec : Rec) : ℚ × Rec :=
  (effVolts rec, pyErase (pyErase rec "v1") "frq")

/-- Watt conversion of one channel value (lines 230-233): hourly samples are
cumulative watt-seconds over the hour (`value / 3600`); per-minute samples use
`value / volts * 4`, where Python raises `ZeroDivisionError` when the voltage
is zero (modelled as `none`). -/
def convWatts (hourly : Bool) (volts value : ℚ) : Option ℚ :=
  if hourly then some (value / (60 * 60))
  else if volts = 0 then none
  else some (value / volts * 4)

/-- Pointwise update of the `pm_totals` map. -/
def updPM (pms : String → PowerMeter) (k : String) (pm : PowerMeter) :
    String → PowerMeter :=
  fun k2 => if k2 = k then pm else pms k2

/-- The per-record channel loop of `load_day` (lines 227-239): for each key of
`headers` in order, if the key is present in the record its value is converted
to watts, the displayed cell is `int(watts)`, and the key is deleted from the
record; otherwise the watts are 0 and the cell is `None`.  Either way the
channel's meter receives `add_value(watts, sample_time)`.  Returns the channel
cells, the updated meters, and the remaining record. -/
def chanLoop (hourly : Bool) (volts t : ℚ) :
    List String → (String → PowerMeter) → Rec →
    Option (List Cell × (String → PowerMeter) × Rec)
  | [], pms, rec => some ([], pms, rec)
  | key :: ks, pms, rec =>
    match assocFind rec key with
    | some value =>
      match convWatts hourly volts value with
      | none => none
      | some watts =>
        match chanLoop hourly volts t ks
            (updPM pms key ((pms key).add_value watts t)) (pyErase rec key) with
        | none => none
        | some (cells, pms2, rec2) =>
          some (Cell.int (pyInt watts) :: cells, pms2, rec2)
    | none =>
      match chanLoop hourly volts t ks
          (updPM pms key ((pms key).add_value 0 t)) rec with
      | none => none
      | some (cells, pms2, rec2) => some (Cell.none :: cells, pms2, rec2)

/-- The result of processing one raw record. -/
structure RecResult where
  row : List Cell
  leftover : Rec
  sampleTime : ℚ
  pms : String → PowerMeter

/-- The sample time a record determines: `((hr * 60) + min) * 60`, with `hr`
and `min` defaulting to 0 when absent. -/
def sampleTimeOf (rec : Rec) : ℚ :=
  (((assocFind rec "hr").getD 0) * 60 + ((assocFind rec "min").getD 0)) * 60

/-- The calendar keys deleted unconditionally from every record (line 215);
Python raises `KeyError` when one is absent. -/
def calKeys : List String := ["dow", "yr", "mon", "dom"]

/-- The field bookkeeping a record has undergone before the channel loop:
extracted hour, minute and voltage, and the record with the consumed fields
removed. -/
structure PreRec where
  hour : ℚ
  minute : ℚ
  volts : ℚ
  rest : Rec

/-- The pre-channel-loop part of the record loop body (lines 202-222): drop
duplicate secondary-meter fields, extract `hr`/`min` with default 0, delete
the calendar fields (`KeyError`, hence `none`, when one is absent), and
extract the voltage. -/
def preNormalize (rec0 : Rec) : Option PreRec :=
  let rec1 := dropDup "imp" "nect1" rec0
  let rec2 := dropDup "exp" "pect1" rec1
  let hr := takeField "hr" 0 rec2
  let mn := takeField "min" 0 hr.2
  match pyDelAll calKeys mn.2 with
  | none => none
  | some rec5 =>
    let vv := takeVolts rec5
    some { hour := hr.1, minute := mn.1, volts := vv.1, rest := vv.2 }

/-- The body of the `for rec in res` loop of `load_day` (lines 197-244) for a
single record: pre-normalize, compute the sample time `((hr * 60) + min) * 60`
and the row's time label and duration, and run the channel loop.  `none`
models an uncaught Python exception. -/
def processRec (hourly : Bool) (prev : ℚ) (pms : String → PowerMeter)
    (rec0 : Rec) : Option RecResult :=
  match preNormalize rec0 with
  | none => none
  | some p =>
    let t : ℚ := (p.hour * 60 + p.minute) * 60
    match chanLoop hourly p.volts t headerKeys pms p.rest with
    | none => none
    | some (cells, pms2, rec7) =>
      some { row := Cell.time p.hour p.minute :: Cell.dur (t - prev) :: cells,
             leftover := rec7, sampleTime := t, pms := pms2 }

/-- The whole record loop: threads `prev_sample_time` and the meters through
the records, collecting the report rows and the leftover-field diagnostics
(each nonempty leftover record is printed, line 242-243). -/
def processRecs (hourly : Bool) :
    List Rec → ℚ → (String → PowerMeter) →
    Option (List (List Cell) × List Rec × ℚ × (String → PowerMeter))
  | [], prev, pms => some ([], [], prev, pms)
  | rec :: rest, prev, pms =>
    match processRec hourly prev pms rec with
    | none => none
    | some r =>
      match processRecs hourly rest r.sampleTime r.pms with
      | none => none
      | some (rows, diags, prevF, pmsF) =>
        some (r.row :: rows,
              (if r.leftover.isEmpty then diags else r.leftover :: diags),
              prevF, pmsF)

/-- The synthetic "one slot before midnight" seed timestamp (lines 181, 184). -/
def prevInit (hourly : Bool) : ℚ := if hourly then -(60 * 60) else -60

/-- The freshly created and seeded meters of `load_day` (lines 191-192): one
fresh `PowerMeter` per channel key, each given `add_value(0, prev_sample_time)`
with the synthetic seed timestamp. -/
def dayInitPMs (hourly : Bool) : String → PowerMeter :=
  fun _ => PowerMeter.init.add_value 0 (prevInit hourly)

/-- The result of `load_day`, keeping everything the claims observe: the table
headers, the `data` rows as printed/returned, the totals row, the printed
leftover-field diagnostics, `num_records`, and the final meters. -/
structure DayResult where
  table_headers : List String
  data : List (List Cell)
  totalsRow : List Cell
  diags : List Rec
  numRecords : ℕ
  pmsF : String → PowerMeter

/-- `load_day` (lines 175-261), with the sample source's response passed in as
`res` and `str(PowerMeter)` modelled from the spec as a deterministic rendering
`render` of the accumulated total (§4.1: the textual rendering of the total is
an external concern, deterministic in the accumulated sum).  `none` models an
uncaught Python exception; printing is side-effect-free here, so the
`use_json` parameter (which only suppresses printing) is dropped. -/
def load_day (render : ℚ → String) (res : List Rec)
    (hourly totalsOnly : Bool) : Option DayResult :=
  match processRecs hourly res (prevInit hourly) (dayInitPMs hourly) with
  | none => none
  | some (rows, diags, _, pmsF) =>
    let trow : List Cell :=
      Cell.str "Totals" :: Cell.none ::
        headerKeys.map (fun k => Cell.str (render (pmsF k).total))
    some { table_headers := tableHeaders,
           data := (if totalsOnly then [] else rows) ++ [trow],
           totalsRow := trow,
           diags := diags,
           numRecords := rows.length,
           pmsF := pmsF }

/-- The JSON fold of `main` (lines 147-153): walk the headers and the totals
row in lockstep; a falsy cell or the `'Time'` header is skipped (and its cell
popped), otherwise the pair is recorded. -/
def collapse : List String → List Cell → List (String × Cell)
  | head :: hs, t :: ts =>
    if t.truthy = false ∨ head = "Time" then collapse hs ts
    else (head, t) :: collapse hs ts
  | _, _ => []

/-- A dynamically-typed Python value held by a `Day` field: an int (from
`time.localtime()`) or a string (from a CLI option value). -/
inductive PyVal where
  | int (n : ℤ)
  | str (s : String)
deriving DecidableEq

/-- The `Day` object of the script. -/
structure Day where
  tm_year : PyVal
  tm_mon : PyVal
  tm_mday : PyVal
deriving DecidableEq

/-- The option state accumulated by `main`'s option loop (lines 104-126). -/
structure OptState where
  hourly : Bool
  totals : Bool
  use_json : Bool
  show_month : Bool
  day : Day
deriving DecidableEq

/-- One iteration of `main`'s option loop: note that `--day`, `--month` and
`--year` store the raw option value, a string, into the `Day` field. -/
def applyOpt (st : OptState) (ov : String × String) : OptState :=
  if ov.1 = "--per-minute" then { st with hourly := false }
  else if ov.1 = "--totals" then { st with totals := true }
  else if ov.1 = "--day" then
    { st with day := { st.day with tm_mday := PyVal.str ov.2 } }
  else if ov.1 = "--month" then
    { st with day := { st.day with tm_mon := PyVal.str ov.2 } }
  else if ov.1 = "--year" then
    { st with day := { st.day with tm_year := PyVal.str ov.2 } }
  else if ov.1 = "--show-month" then { st with show_month := true }
  else if ov.1 = "--json" then { st with use_json := true }
  else st

/-- `main`'s option processing (lines 104-126), starting from the defaults
(hourly, no totals, no JSON, no month rollup, today's date). -/
def parseOpts (today : Day) (opts : List (String × String)) : OptState :=
  opts.foldl applyOpt
    { hourly := true, totals := false, use_json := false,
      show_month := false, day := today }

/-- The outcome of processing one Zappi device in `main`. -/
inductive ZOut where
  | json (m : List (String × Cell))
  | month (rows : List (List Cell))
  | single (r : DayResult)

/-- The `show_month` inner loop of `main` (lines 157-166): for each
day-of-month in the given list, call `load_day` on that day's samples and
collect the returned totals row. -/
def monthRows (render : ℚ → String) (hourly totals : Bool)
    (source : Day → List Rec) (base : Day) :
    List ℤ → Option (List (List Cell))
  | [] => some []
  | d :: ds =>
    match load_day render (source { base with tm_mday := PyVal.int d })
        hourly totals with
    | none => none
    | some r =>
      match monthRows render hourly totals source base ds with
      | none => none
      | some rows => some (r.totalsRow :: rows)

/-- Python `range(1, n + 1)`: the days 1, 2, ..., n in ascending order. -/
def monthDays (n : ℤ) : List ℤ :=
  (List.range n.toNat).map (fun i : ℕ => 1 + (i : ℤ))

/-- The per-device dispatch of `main` (lines 140-169).  JSON mode calls
`load_day` with the literals `True, True, True` (hourly, totals, JSON) and
folds the totals row; month mode evaluates `day.tm_mday + 1`, which raises
`TypeError` when `tm_mday` is a string (modelled as `none`), and a month with
an empty day range leaves `headers` unbound, a `NameError` (also `none`);
otherwise a single day is reported. -/
def zappiDispatch (render : ℚ → String) (st : OptState)
    (source : Day → List Rec) : Option ZOut :=
  if st.use_json then
    (load_day render (source st.day) true true).map
      (fun r => ZOut.json (collapse r.table_headers r.totalsRow))
  else if st.show_month then
    match st.day.tm_mday with
    | PyVal.str _ => none
    | PyVal.int n =>
      if n < 1 then none
      else (monthRows render st.hourly st.totals source st.day
              (monthDays n)).map ZOut.month
  else
    (load_day render (source st.day) st.hourly st.totals).map
      (fun r => ZOut.single r)

/-- The bookkeeping field names the record loop consumes outside the channel
loop: duplicate secondary meters, time fields, calendar fields, voltage and
frequency. -/
def bookKeys : List String :=
  ["nect1", "pect1", "hr", "min", "dow", "yr", "mon", "dom", "v1", "frq"]

/-- Every field name the record loop recognizes; any other field survives to
the end of the loop body and is printed as a diagnostic. -/
def knownKeys : List String := bookKeys ++ headerKeys

/-- A record the loop body processes without an uncaught exception: the four
calendar fields are present (else `del rec[key]` raises `KeyError`) and, for
per-minute granularity, the record's voltage is nonzero (else `value / volts`
raises `ZeroDivisionError`). -/
def recOK (hourly : Bool) (rec : Rec) : Prop :=
  (∀ k ∈ calKeys, (assocFind rec k).isSome = true) ∧
    (hourly = true ∨ effVolts rec ≠ 0)

/-- Projection used to observe the first report row's duration cell through
the `Option` results. -/
def firstRowDur (o : Option DayResult) : Option Cell :=
  match o with
  | some dr =>
    match dr.data.get? 0 with
    | some row => row.get? 1
    | none => none
  | none => none

/-! ### Concrete inputs used to instantiate the theorems -/

/-- A concrete rendering of meter totals (the rendering is opaque to every
statement below, so any function will do for instantiation). -/
def renderW : ℚ → String := fun _ => "W"

/-- A concrete hourly midnight record with `imp = 1800` watt-seconds. -/
def c1Rec : Rec :=
  [("hr", 0), ("min", 0), ("dow", 1), ("yr", 2026), ("mon", 10),
   ("dom", 12), ("imp", 1800)]

/-- A concrete per-minute record (no `v1`, so the voltage defaults to 1). -/
def perMinRec : Rec :=
  [("dow", 1), ("yr", 2026), ("mon", 10), ("dom", 12), ("hr", 0),
   ("min", 1), ("imp", 40)]

/-- A concrete record carrying an unrecognized field `zzz`. -/
def diagRec : Rec :=
  [("dow", 1), ("yr", 2026), ("mon", 10), ("dom", 12), ("zzz", 5),
   ("imp", 40), ("nect1", 40)]

/-- A concrete record with a duplicated secondary meter reading. -/
def dupRec : Rec := [("imp", 40), ("nect1", 40)]

/-- The result of processing `perMinRec` per-minute. -/
def rW8 : RecResult :=
  (processRec false (prevInit false) (dayInitPMs false) perMinRec).get (by rfl)

/-- The result of processing `c1Rec` hourly. -/
def rW1 : RecResult :=
  (processRec true (prevInit true) (dayInitPMs true) c1Rec).get (by rfl)

/-- The day result for an empty hourly JSON-mode day. -/
def drW4 : DayResult := (load_day renderW [] true true).get (by rfl)

/-- A concrete command line passing `--json` together with `--per-minute`. -/
def optsW9 : List (String × String) := [("--json", ""), ("--per-minute", "")]

/-- A concrete command line passing `--day` together with `--show-month`. -/
def optsW10 : List (String × String) := [("--day", "5"), ("--show-month", "")]

/-- The day result for an empty hourly full-table day. -/
def drW7 : DayResult := (load_day renderW [] true false).get (by rfl)

/-- A constant per-day result map for the month-rollup instantiation. -/
def rsW7 : ℤ → DayResult := fun _ => drW7

/-- A concrete month-mode option state: `tm_mday = 2`, no JSON. -/
def stW7 : OptState :=
  { hourly := true, totals := false, use_json := false, show_month := true,
    day := { tm_year := PyVal.int 2026, tm_mon := PyVal.int 10,
             tm_mday := PyVal.int 2 } }

/-- A concrete `time.localtime()`-style date (all fields ints). -/
def todayW : Day :=
  { tm_year := PyVal.int 2026, tm_mon := PyVal.int 10,
    tm_mday := PyVal.int 12 }

/-- A sample source returning no records for any day. -/
def sourceW : Day → List Rec := fun _ => []

/-! ### Association-list facts -/

theorem assocFind_pyErase_self (rec : Rec) (k : String) :
    assocFind (pyErase rec k) k = none := by
  induction rec with
  | nil => rfl
  | cons p rest ih =>
    obtain ⟨a, b⟩ := p
    by_cases h : a = k
    · simpa [pyErase, h] using ih
    · simpa [pyErase, assocFind, h] using ih

theorem assocFind_pyErase_ne (rec : Rec) {k key : String} (h : key ≠ k) :
    assocFind (pyErase rec k) key = assocFind rec key := by
  induction rec with
  | nil => rfl
  | cons p rest ih =>
    obtain ⟨a, b⟩ := p
    by_cases hp : a = k
    · simp [pyErase, assocFind, hp, ih, Ne.symm h]
    · by_cases hk2 : a = key
      · simp [pyErase, assocFind, hp, hk2, h]
      · simp [pyErase, assocFind, hp, hk2, ih]

theorem mem_pyErase_of_ne {kv : String × ℚ} (rec : Rec) (k : String)
    (h1 : kv ∈ rec) (h2 : kv.1 ≠ k) : kv ∈ pyErase rec k := by
  induction rec with
  | nil => cases h1
  | cons p rest ih =>
    rcases List.mem_cons.mp h1 with h | h
    · subst h
      simp [pyErase, h2]
    · by_cases hp : p.1 = k
      · simpa [pyErase, hp] using ih h
      · simpa [pyErase, hp] using Or.inr (ih h)

theorem assocFind_dropDup_ne (c s : String) (rec : Rec) {key : String}
    (h : key ≠ s) : assocFind (dropDup c s rec) key = assocFind rec key := by
  unfold dropDup
  cases assocFind rec c with
  | none => rfl
  | some a =>
    cases assocFind rec s with
    | none => rfl
    | some b =>
      by_cases hab : a = b
      · simp [hab, assocFind_pyErase_ne rec h]
      · simp [hab]

theorem mem_dropDup {kv : String × ℚ} (c s : String) (rec : Rec)
    (h1 : kv ∈ rec) (h2 : kv.1 ≠ s) : kv ∈ dropDup c s rec := by
  unfold dropDup
  cases assocFind rec c with
  | none => exact h1
  | some a =>
    cases assocFind rec s with
    | none => exact h1
    | some b =>
      by_cases hab : a = b
      · simpa [hab] using mem_pyErase_of_ne rec s h1 h2
      · simpa [hab] using h1

theorem takeField_fst (k : String) (d : ℚ) (rec : Rec) :
    (takeField k d rec).1 = (assocFind rec k).getD d := by
  unfold takeField
  cases assocFind rec k <;> rfl

theorem assocFind_takeField_ne (k : String) (d : ℚ) (rec : Rec) {key : String}
    (h : key ≠ k) : assocFind (takeField k d rec).2 key = assocFind rec key := by
  unfold takeField
  cases assocFind rec k with
  | none => rfl
  | some v => simpa using assocFind_pyErase_ne rec h

theorem mem_takeField {kv : String × ℚ} (k : String) (d : ℚ) (rec : Rec)
    (h1 : kv ∈ rec) (h2 : kv.1 ≠ k) : kv ∈ (takeField k d rec).2 := by
  unfold takeField
  cases assocFind rec k with
  | none => exact h1
  | some v => simpa using mem_pyErase_of_ne rec k h1 h2

theorem pyDelAll_isSome (ks : List String) (rec : Rec)
    (h : ∀ k ∈ ks, (assocFind rec k).isSome = true) (hnd : ks.Nodup) :
    (pyDelAll ks rec).isSome = true := by
  induction ks generalizing rec with
  | nil => rfl
  | cons k ks ih =>
    have hk := h k (List.mem_cons_self k ks)
    have hrest : ∀ k2 ∈ ks, (assocFind (pyErase rec k) k2).isSome = true := by
      intro k2 hk2
      have hne : k2 ≠ k := by
        intro he
        exact (List.nodup_cons.mp hnd).1 (he ▸ hk2)
      rw [assocFind_pyErase_ne rec hne]
      exact h k2 (List.mem_cons_of_mem k hk2)
    simpa [pyDelAll, hk] using ih (pyErase rec k) hrest (List.nodup_cons.mp hnd).2

theorem assocFind_pyDelAll_ne (ks : List String) (rec rec2 : Rec)
    (h : pyDelAll ks rec = some rec2) {key : String} (hk : key ∉ ks) :
    assocFind rec2 key = assocFind rec key := by
  induction ks generalizing rec with
  | nil =>
    simp only [pyDelAll] at h
    cases h
    rfl
  | cons k ks ih =>
    simp only [pyDelAll] at h
    by_cases hs : (assocFind rec k).isSome = true
    · rw [if_pos hs] at h
      have hne : key ≠ k := fun he => hk (he ▸ List.mem_cons_self k ks)
      rw [ih (pyErase rec k) h (fun hm => hk (List.mem_cons_of_mem k hm))]
      exact assocFind_pyErase_ne rec hne
    · rw [if_neg hs] at h
      cases h

theorem mem_pyDelAll {kv : String × ℚ} (ks : List String) (rec rec2 : Rec)
    (h : pyDelAll ks rec = some rec2) (h1 : kv ∈ rec) (h2 : kv.1 ∉ ks) :
    kv ∈ rec2 := by
  induction ks generalizing rec with
  | nil =>
    simp only [pyDelAll] at h
    cases h
    exact h1
  | cons k ks ih =>
    simp only [pyDelAll] at h
    by_cases hs : (assocFind rec k).isSome = true
    · rw [if_pos hs] at h
      have hne : kv.1 ≠ k := fun he => h2 (he ▸ List.mem_cons_self k ks)
      exact ih (pyErase rec k) h (mem_pyErase_of_ne rec k h1 hne)
        (fun hm => h2 (List.mem_cons_of_mem k hm))
    · rw [if_neg hs] at h
      cases h

/-! ### Pre-normalization facts -/

theorem assocFind_preSteps (rec0 : Rec) {key : String}
    (h1 : key ≠ "nect1") (h2 : key ≠ "pect1") :
    assocFind (dropDup "exp" "pect1" (dropDup "imp" "nect1" rec0)) key
      = assocFind rec0 key := by
  rw [assocFind_dropDup_ne _ _ _ h2, assocFind_dropDup_ne _ _ _ h1]

theorem preNormalize_isSome (rec0 : Rec)
    (hcal : ∀ k ∈ calKeys, (assocFind rec0 k).isSome = true) :
    (preNormalize rec0).isSome = true := by
  simp only [preNormalize]
  have hcal2 : ∀ k ∈ calKeys,
      (assocFind (takeField "min" 0
        (takeField "hr" 0
          (dropDup "exp" "pect1" (dropDup "imp" "nect1" rec0))).2).2 k).isSome
        = true := by
    intro k hk
    have hm : k ∈ calKeys := hk
    simp only [calKeys, List.mem_cons, List.mem_singleton] at hk
    rcases hk with h | h | h | (h | h)
    all_goals try subst h
    all_goals try cases h
    all_goals
      rw [assocFind_takeField_ne _ _ _ (by decide),
        assocFind_takeField_ne _ _ _ (by decide),
        assocFind_preSteps _ (by decide) (by decide)]
    all_goals exact hcal _ hm
  have hdel := pyDelAll_isSome calKeys _ hcal2 (by decide)
  cases hres : pyDelAll calKeys (takeField "min" 0
      (takeField "hr" 0
        (dropDup "exp" "pect1" (dropDup "imp" "nect1" rec0))).2).2 with
  | none => rw [hres] at hdel; cases hdel
  | some rec5 => simp [hres]

theorem preNormalize_spec (rec0 : Rec) (p : PreRec)
    (h : preNormalize rec0 = some p) :
    p.hour = (assocFind rec0 "hr").getD 0 ∧
    p.minute = (assocFind rec0 "min").getD 0 ∧
    p.volts = effVolts rec0 ∧
    (∀ key : String, key ∉ bookKeys →
      assocFind p.rest key = assocFind rec0 key) ∧
    (∀ kv : String × ℚ, kv ∈ rec0 → kv.1 ∉ bookKeys → kv ∈ p.rest) := by
  simp only [preNormalize] at h
  cases hres : pyDelAll calKeys (takeField "min" 0
      (takeField "hr" 0
        (dropDup "exp" "pect1" (dropDup "imp" "nect1" rec0))).2).2 with
  | none => rw [hres] at h; cases h
  | some rec5 =>
    rw [hres] at h
    simp only [takeVolts, Option.some.injEq] at h
    subst h
    refine ⟨?_, ?_, ?_, ?_, ?_⟩
    · show (takeField "hr" 0
          (dropDup "exp" "pect1" (dropDup "imp" "nect1" rec0))).1
        = (assocFind rec0 "hr").getD 0
      rw [takeField_fst, assocFind_preSteps _ (by decide) (by decide)]
    · show (takeField "min" 0 (takeField "hr" 0
          (dropDup "exp" "pect1" (dropDup "imp" "nect1" rec0))).2).1
        = (assocFind rec0 "min").getD 0
      rw [takeField_fst,
        assocFind_takeField_ne "hr" 0 _ (by decide : ("min":String) ≠ "hr"),
        assocFind_preSteps _ (by decide) (by decide)]
    · show effVolts rec5 = effVolts rec0
      unfold effVolts
      rw [assocFind_pyDelAll_ne calKeys _ rec5 hres (by decide),
        assocFind_takeField_ne "min" 0 _ (by decide : ("v1":String) ≠ "min"),
        assocFind_takeField_ne "hr" 0 _ (by decide : ("v1":String) ≠ "hr"),
        assocFind_preSteps _ (by decide) (by decide)]
    · intro key hk
      simp only [bookKeys, List.mem_cons, List.not_mem_nil, or_false,
        not_or] at hk
      obtain ⟨k1, k2, k3, k4, k5, k6, k7, k8, k9, k10⟩ := hk
      show assocFind (pyErase (pyErase rec5 "v1") "frq") key = assocFind rec0 key
      rw [assocFind_pyErase_ne _ k10, assocFind_pyErase_ne _ k9,
        assocFind_pyDelAll_ne calKeys _ rec5 hres
          (by simp [calKeys, k5, k6, k7, k8]),
        assocFind_takeField_ne "min" 0 _ k4,
        assocFind_takeField_ne "hr" 0 _ k3,
        assocFind_preSteps _ k1 k2]
    · intro kv hkv hk
      simp only [bookKeys, List.mem_cons, List.not_mem_nil, or_false,
        not_or] at hk
      obtain ⟨k1, k2, k3, k4, k5, k6, k7, k8, k9, k10⟩ := hk
      show kv ∈ pyErase (pyErase rec5 "v1") "frq"
      refine mem_pyErase_of_ne _ _ (mem_pyErase_of_ne _ _ ?_ k9) k10
      refine mem_pyDelAll calKeys _ rec5 hres ?_
        (by simp [calKeys, k5, k6, k7, k8])
      exact mem_takeField _ _ _ (mem_takeField _ _ _
        (mem_dropDup _ _ _ (mem_dropDup _ _ _ hkv k1) k2) k3) k4

/-! ### Channel-loop facts -/

theorem chanLoop_inv (hourly : Bool) (volts t : ℚ) (k : String)
    (ks : List String) (pms : String → PowerMeter) (rec : Rec)
    (cells : List Cell) (pms2 : String → PowerMeter) (rec2 : Rec)
    (h : chanLoop hourly volts t (k :: ks) pms rec = some (cells, pms2, rec2)) :
    (∃ v w cells1, assocFind rec k = some v ∧
      convWatts hourly volts v = some w ∧
      chanLoop hourly volts t ks (updPM pms k ((pms k).add_value w t))
        (pyErase rec k) = some (cells1, pms2, rec2) ∧
      cells = Cell.int (pyInt w) :: cells1) ∨
    (∃ cells1, assocFind rec k = none ∧
      chanLoop hourly volts t ks (updPM pms k ((pms k).add_value 0 t)) rec
        = some (cells1, pms2, rec2) ∧
      cells = Cell.none :: cells1) := by
  simp only [chanLoop] at h
  split at h
  · rename_i v hf
    split at h
    · exact Option.noConfusion h
    · rename_i w hw
      split at h
      · exact Option.noConfusion h
      · rename_i trip cells1 pms1 rec1 hc
        simp only [Option.some.injEq, Prod.mk.injEq] at h
        obtain ⟨h1, h2, h3⟩ := h
        subst h2
        subst h3
        exact Or.inl ⟨v, w, cells1, hf, hw, hc, h1.symm⟩
  · rename_i hf
    split at h
    · exact Option.noConfusion h
    · rename_i trip cells1 pms1 rec1 hc
      simp only [Option.some.injEq, Prod.mk.injEq] at h
      obtain ⟨h1, h2, h3⟩ := h
      subst h2
      subst h3
      exact Or.inr ⟨cells1, hf, hc, h1.symm⟩

theorem chanLoop_isSome (hourly : Bool) (volts t : ℚ) (ks : List String)
    (pms : String → PowerMeter) (rec : Rec)
    (h : hourly = true ∨ volts ≠ 0) :
    (chanLoop hourly volts t ks pms rec).isSome = true := by
  induction ks generalizing pms rec with
  | nil => rfl
  | cons k ks ih =>
    cases hf : assocFind rec k with
    | none =>
      have h2 := ih (updPM pms k ((pms k).add_value 0 t)) rec
      cases hc : chanLoop hourly volts t ks
          (updPM pms k ((pms k).add_value 0 t)) rec with
      | none => rw [hc] at h2; cases h2
      | some trip =>
        obtain ⟨cells, pms2, rec2⟩ := trip
        simp [chanLoop, hf, hc]
    | some v =>
      have hw : (convWatts hourly volts v).isSome = true := by
        cases hourly with
        | false =>
          rcases h with h | h
          · cases h
          · simp [convWatts, h]
        | true => simp [convWatts]
      cases hwr : convWatts hourly volts v with
      | none => rw [hwr] at hw; cases hw
      | some w =>
        have h2 := ih (updPM pms k ((pms k).add_value w t)) (pyErase rec k)
        cases hc : chanLoop hourly volts t ks
            (updPM pms k ((pms k).add_value w t)) (pyErase rec k) with
        | none => rw [hc] at h2; cases h2
        | some trip =>
          obtain ⟨cells, pms2, rec2⟩ := trip
          simp [chanLoop, hf, hwr, hc]

theorem chanLoop_pms_outside (hourly : Bool) (volts t : ℚ) (ks : List String)
    (pms : String → PowerMeter) (rec : Rec) (cells : List Cell)
    (pms2 : String → PowerMeter) (rec2 : Rec)
    (h : chanLoop hourly volts t ks pms rec = some (cells, pms2, rec2))
    {key : String} (hk : key ∉ ks) : pms2 key = pms key := by
  induction ks generalizing pms rec cells with
  | nil =>
    simp only [chanLoop, Option.some.injEq, Prod.mk.injEq] at h
    rw [← h.2.1]
  | cons k ks ih =>
    have hkk : key ≠ k := fun he => hk (he ▸ List.mem_cons_self k ks)
    have hks : key ∉ ks := fun hm => hk (List.mem_cons_of_mem k hm)
    rcases chanLoop_inv _ _ _ _ _ _ _ _ _ _ h with
      ⟨v, w, cells1, _, _, hc, _⟩ | ⟨cells1, _, hc, _⟩ <;>
      rw [ih _ _ _ hc hks, updPM, if_neg hkk]

theorem chanLoop_mem (hourly : Bool) (volts t : ℚ) (ks : List String)
    (pms : String → PowerMeter) (rec : Rec) (cells : List Cell)
    (pms2 : String → PowerMeter) (rec2 : Rec)
    (h : chanLoop hourly volts t ks pms rec = some (cells, pms2, rec2))
    {kv : String × ℚ} (h1 : kv ∈ rec) (h2 : kv.1 ∉ ks) : kv ∈ rec2 := by
  induction ks generalizing pms rec cells with
  | nil =>
    simp only [chanLoop, Option.some.injEq, Prod.mk.injEq] at h
    exact h.2.2 ▸ h1
  | cons k ks ih =>
    have hkk : kv.1 ≠ k := fun he => h2 (he ▸ List.mem_cons_self k ks)
    have hks : kv.1 ∉ ks := fun hm => h2 (List.mem_cons_of_mem k hm)
    rcases chanLoop_inv _ _ _ _ _ _ _ _ _ _ h with
      ⟨v, w, cells1, _, _, hc, _⟩ | ⟨cells1, _, hc, _⟩
    · exact ih _ _ _ hc (mem_pyErase_of_ne rec k h1 hkk) hks
    · exact ih _ _ _ hc h1 hks

theorem chanLoop_length (hourly : Bool) (volts t : ℚ) (ks : List String)
    (pms : String → PowerMeter) (rec : Rec) (cells : List Cell)
    (pms2 : String → PowerMeter) (rec2 : Rec)
    (h : chanLoop hourly volts t ks pms rec = some (cells, pms2, rec2)) :
    cells.length = ks.length := by
  induction ks generalizing pms rec cells with
  | nil =>
    simp only [chanLoop, Option.some.injEq, Prod.mk.injEq] at h
    rw [← h.1]
    rfl
  | cons k ks ih =>
    rcases chanLoop_inv _ _ _ _ _ _ _ _ _ _ h with
      ⟨v, w, cells1, _, _, hc, hcc⟩ | ⟨cells1, _, hc, hcc⟩ <;>
      subst hcc <;> simp [ih _ _ _ hc]

theorem chanLoop_present (hourly : Bool) (volts t : ℚ) (ks : List String)
    (pms : String → PowerMeter) (rec : Rec) (cells : List Cell)
    (pms2 : String → PowerMeter) (rec2 : Rec) (i : ℕ) (key : String) (v w : ℚ)
    (h : chanLoop hourly volts t ks pms rec = some (cells, pms2, rec2))
    (hnd : ks.Nodup) (hi : ks.get? i = some key)
    (hv : assocFind rec key = some v)
    (hw : convWatts hourly volts v = some w) :
    cells.get? i = some (Cell.int (pyInt w)) ∧
    pms2 key = (pms key).add_value w t := by
  induction ks generalizing pms rec cells i with
  | nil => cases hi
  | cons k ks ih =>
    obtain ⟨hknotin, hndk⟩ := List.nodup_cons.mp hnd
    cases i with
    | zero =>
      simp only [List.get?] at hi
      cases hi
      rcases chanLoop_inv _ _ _ _ _ _ _ _ _ _ h with
        ⟨v1, w1, cells1, hf1, hw1, hc, hcc⟩ | ⟨cells1, hf1, hc, hcc⟩
      · rw [hv] at hf1
        cases hf1
        rw [hw] at hw1
        cases hw1
        subst hcc
        refine ⟨rfl, ?_⟩
        rw [chanLoop_pms_outside _ _ _ _ _ _ _ _ _ hc hknotin, updPM, if_pos rfl]
      · rw [hv] at hf1
        cases hf1
    | succ i =>
      simp only [List.get?] at hi
      have hkey : key ∈ ks := List.get?_mem hi
      have hkk : key ≠ k := fun he => hknotin (he ▸ hkey)
      rcases chanLoop_inv _ _ _ _ _ _ _ _ _ _ h with
        ⟨v1, w1, cells1, hf1, hw1, hc, hcc⟩ | ⟨cells1, hf1, hc, hcc⟩
      · subst hcc
        have hv2 : assocFind (pyErase rec k) key = some v := by
          rw [assocFind_pyErase_ne rec hkk]
          exact hv
        have hih := ih _ _ _ i hc hndk hi hv2
        refine ⟨hih.1, ?_⟩
        rw [hih.2, updPM, if_neg hkk]
      · subst hcc
        have hih := ih _ _ _ i hc hndk hi hv
        refine ⟨hih.1, ?_⟩
        rw [hih.2, updPM, if_neg hkk]

theorem chanLoop_absent (hourly : Bool) (volts t : ℚ) (ks : List String)
    (pms : String → PowerMeter) (rec : Rec) (cells : List Cell)
    (pms2 : String → PowerMeter) (rec2 : Rec) (i : ℕ) (key : String)
    (h : chanLoop hourly volts t ks pms rec = some (cells, pms2, rec2))
    (hnd : ks.Nodup) (hi : ks.get? i = some key)
    (hv : assocFind rec key = none) :
    cells.get? i = some Cell.none ∧
    pms2 key = (pms key).add_value 0 t := by
  induction ks generalizing pms rec cells i with
  | nil => cases hi
  | cons k ks ih =>
    obtain ⟨hknotin, hndk⟩ := List.nodup_cons.mp hnd
    cases i with
    | zero =>
      simp only [List.get?] at hi
      cases hi
      rcases chanLoop_inv _ _ _ _ _ _ _ _ _ _ h with
        ⟨v1, w1, cells1, hf1, hw1, hc, hcc⟩ | ⟨cells1, hf1, hc, hcc⟩
      · rw [hv] at hf1
        cases hf1
      · subst hcc
        refine ⟨rfl, ?_⟩
        rw [chanLoop_pms_outside _ _ _ _ _ _ _ _ _ hc hknotin, updPM, if_pos rfl]
    | succ i =>
      simp only [List.get?] at hi
      have hkey : key ∈ ks := List.get?_mem hi
      have hkk : key ≠ k := fun he => hknotin (he ▸ hkey)
      rcases chanLoop_inv _ _ _ _ _ _ _ _ _ _ h with
        ⟨v1, w1, cells1, hf1, hw1, hc, hcc⟩ | ⟨cells1, hf1, hc, hcc⟩
      · subst hcc
        have hv2 : assocFind (pyErase rec k) key = none := by
          rw [assocFind_pyErase_ne rec hkk]
          exact hv
        have hih := ih _ _ _ i hc hndk hi hv2
        refine ⟨hih.1, ?_⟩
        rw [hih.2, updPM, if_neg hkk]
      · subst hcc
        have hih := ih _ _ _ i hc hndk hi hv
        refine ⟨hih.1, ?_⟩
        rw [hih.2, updPM, if_neg hkk]

/-! ### Record-loop-body facts -/

theorem processRec_inv (hourly : Bool) (prev : ℚ) (pms : String → PowerMeter)
    (rec0 : Rec) (r : RecResult)
    (h : processRec hourly prev pms rec0 = some r) :
    ∃ p cells rec7, preNormalize rec0 = some p ∧
      chanLoop hourly p.volts ((p.hour * 60 + p.minute) * 60) headerKeys pms
        p.rest = some (cells, r.pms, rec7) ∧
      r.row = Cell.time p.hour p.minute ::
        Cell.dur ((p.hour * 60 + p.minute) * 60 - prev) :: cells ∧
      r.leftover = rec7 ∧
      r.sampleTime = (p.hour * 60 + p.minute) * 60 := by
  simp only [processRec] at h
  split at h
  · exact Option.noConfusion h
  · rename_i p hp
    split at h
    · exact Option.noConfusion h
    · rename_i trip cells pms2 rec7 hc
      simp only [Option.some.injEq] at h
      subst h
      exact ⟨p, cells, rec7, hp, hc, rfl, rfl, rfl⟩

theorem processRec_isSome (hourly : Bool) (prev : ℚ)
    (pms : String → PowerMeter) (rec0 : Rec) (hok : recOK hourly rec0) :
    (processRec hourly prev pms rec0).isSome = true := by
  obtain ⟨hcal, hv⟩ := hok
  have hpre := preNormalize_isSome rec0 hcal
  cases hp : preNormalize rec0 with
  | none => rw [hp] at hpre; cases hpre
  | some p =>
    have hvolts : p.volts = effVolts rec0 :=
      (preNormalize_spec rec0 p hp).2.2.1
    have hcl := chanLoop_isSome hourly p.volts ((p.hour * 60 + p.minute) * 60)
      headerKeys pms p.rest (by rw [hvolts]; exact hv)
    cases hc : chanLoop hourly p.volts ((p.hour * 60 + p.minute) * 60)
        headerKeys pms p.rest with
    | none => rw [hc] at hcl; cases hcl
    | some trip =>
      obtain ⟨cells, pms2, rec7⟩ := trip
      simp [processRec, hp, hc]

theorem processRec_sampleTime (hourly : Bool) (prev : ℚ)
    (pms : String → PowerMeter) (rec0 : Rec) (r : RecResult)
    (h : processRec hourly prev pms rec0 = some r) :
    r.sampleTime = sampleTimeOf rec0 := by
  obtain ⟨p, cells, rec7, hp, hc, hrow, hleft, ht⟩ :=
    processRec_inv _ _ _ _ _ h
  obtain ⟨hh, hm, _, _, _⟩ := preNormalize_spec rec0 p hp
  rw [ht, hh, hm, sampleTimeOf]

theorem processRec_dur (hourly : Bool) (prev : ℚ)
    (pms : String → PowerMeter) (rec0 : Rec) (r : RecResult)
    (h : processRec hourly prev pms rec0 = some r) :
    r.row.get? 1 = some (Cell.dur (sampleTimeOf rec0 - prev)) := by
  obtain ⟨p, cells, rec7, hp, hc, hrow, hleft, ht⟩ :=
    processRec_inv _ _ _ _ _ h
  obtain ⟨hh, hm, _, _, _⟩ := preNormalize_spec rec0 p hp
  rw [hrow]
  simp only [List.get?, Option.some.injEq, Cell.dur.injEq]
  rw [hh, hm, sampleTimeOf]

theorem headerKeys_not_book : ∀ k ∈ headerKeys, k ∉ bookKeys := by decide

theorem processRec_present (hourly : Bool) (prev : ℚ)
    (pms : String → PowerMeter) (rec0 : Rec) (r : RecResult)
    (i : ℕ) (key : String) (v w : ℚ)
    (h : processRec hourly prev pms rec0 = some r)
    (hik : headerKeys.get? i = some key)
    (hv : assocFind rec0 key = some v)
    (hw : convWatts hourly (effVolts rec0) v = some w) :
    r.row.get? (i + 2) = some (Cell.int (pyInt w)) ∧
    r.pms key = (pms key).add_value w (sampleTimeOf rec0) := by
  obtain ⟨p, cells, rec7, hp, hc, hrow, hleft, ht⟩ :=
    processRec_inv _ _ _ _ _ h
  obtain ⟨hh, hm, hvolts, hfind, _⟩ := preNormalize_spec rec0 p hp
  have hkmem : key ∈ headerKeys := List.get?_mem hik
  have hv2 : assocFind p.rest key = some v := by
    rw [hfind key (headerKeys_not_book key hkmem)]
    exact hv
  have hw2 : convWatts hourly p.volts v = some w := by rw [hvolts]; exact hw
  have hts : (p.hour * 60 + p.minute) * 60 = sampleTimeOf rec0 := by
    rw [hh, hm, sampleTimeOf]
  have hcp := chanLoop_present _ _ _ _ _ _ _ _ _ i key v w hc
    (by decide) hik hv2 hw2
  constructor
  · rw [hrow]
    simpa [List.get?] using hcp.1
  · rw [hcp.2, hts]

theorem processRec_absent (hourly : Bool) (prev : ℚ)
    (pms : String → PowerMeter) (rec0 : Rec) (r : RecResult)
    (i : ℕ) (key : String)
    (h : processRec hourly prev pms rec0 = some r)
    (hik : headerKeys.get? i = some key)
    (hv : assocFind rec0 key = none) :
    r.row.get? (i + 2) = some Cell.none ∧
    r.pms key = (pms key).add_value 0 (sampleTimeOf rec0) := by
  obtain ⟨p, cells, rec7, hp, hc, hrow, hleft, ht⟩ :=
    processRec_inv _ _ _ _ _ h
  obtain ⟨hh, hm, hvolts, hfind, _⟩ := preNormalize_spec rec0 p hp
  have hkmem : key ∈ headerKeys := List.get?_mem hik
  have hv2 : assocFind p.rest key = none := by
    rw [hfind key (headerKeys_not_book key hkmem)]
    exact hv
  have hts : (p.hour * 60 + p.minute) * 60 = sampleTimeOf rec0 := by
    rw [hh, hm, sampleTimeOf]
  have hcp := chanLoop_absent _ _ _ _ _ _ _ _ _ i key hc (by decide) hik hv2
  constructor
  · rw [hrow]
    simpa [List.get?] using hcp.1
  · rw [hcp.2, hts]

theorem processRec_leftover (hourly : Bool) (prev : ℚ)
    (pms : String → PowerMeter) (rec0 : Rec) (r : RecResult)
    (h : processRec hourly prev pms rec0 = some r)
    {kv : String × ℚ} (h1 : kv ∈ rec0) (h2 : kv.1 ∉ knownKeys) :
    kv ∈ r.leftover := by
  obtain ⟨p, cells, rec7, hp, hc, hrow, hleft, ht⟩ :=
    processRec_inv _ _ _ _ _ h
  obtain ⟨_, _, _, _, hmem⟩ := preNormalize_spec rec0 p hp
  simp only [knownKeys, List.mem_append, not_or] at h2
  rw [hleft]
  exact chanLoop_mem _ _ _ _ _ _ _ _ _ hc (hmem kv h1 h2.1) h2.2

/-! ### Whole-loop and `load_day` facts -/

theorem processRecs_inv_cons (hourly : Bool) (rec : Rec) (rest : List Rec)
    (prev : ℚ) (pms : String → PowerMeter)
    (out : List (List Cell) × List Rec × ℚ × (String → PowerMeter))
    (h : processRecs hourly (rec :: rest) prev pms = some out) :
    ∃ r rows diags prevF pmsF, processRec hourly prev pms rec = some r ∧
      processRecs hourly rest r.sampleTime r.pms
        = some (rows, diags, prevF, pmsF) ∧
      out = (r.row :: rows,
        (if r.leftover.isEmpty then diags else r.leftover :: diags),
        prevF, pmsF) := by
  simp only [processRecs] at h
  split at h
  · exact Option.noConfusion h
  · rename_i r hr
    split at h
    · exact Option.noConfusion h
    · rename_i quad rows diags prevF pmsF hrest
      simp only [Option.some.injEq] at h
      exact ⟨r, rows, diags, prevF, pmsF, hr, hrest, h.symm⟩

theorem processRecs_isSome (hourly : Bool) (res : List Rec)
    (hok : ∀ rec ∈ res, recOK hourly rec) (prev : ℚ)
    (pms : String → PowerMeter) :
    (processRecs hourly res prev pms).isSome = true := by
  induction res generalizing prev pms with
  | nil => rfl
  | cons rec rest ih =>
    have h1 := processRec_isSome hourly prev pms rec
      (hok rec (List.mem_cons_self rec rest))
    cases hr : processRec hourly prev pms rec with
    | none => rw [hr] at h1; cases h1
    | some r =>
      have h2 := ih (fun q hq => hok q (List.mem_cons_of_mem rec hq))
        r.sampleTime r.pms
      cases hrest : processRecs hourly rest r.sampleTime r.pms with
      | none => rw [hrest] at h2; cases h2
      | some quad =>
        obtain ⟨rows, diags, prevF, pmsF⟩ := quad
        simp [processRecs, hr, hrest]

theorem processRecs_length (hourly : Bool) (res : List Rec) (prev : ℚ)
    (pms : String → PowerMeter) (rows : List (List Cell)) (diags : List Rec)
    (prevF : ℚ) (pmsF : String → PowerMeter)
    (h : processRecs hourly res prev pms = some (rows, diags, prevF, pmsF)) :
    rows.length = res.length := by
  induction res generalizing prev pms rows diags prevF pmsF with
  | nil =>
    simp only [processRecs, Option.some.injEq, Prod.mk.injEq] at h
    rw [← h.1]
    rfl
  | cons rec rest ih =>
    obtain ⟨r, rows1, diags1, prevF1, pmsF1, hr, hrest, hout⟩ :=
      processRecs_inv_cons _ _ _ _ _ _ h
    simp only [Prod.mk.injEq] at hout
    obtain ⟨h1, _, _⟩ := hout
    subst h1
    simp [ih _ _ _ _ _ _ hrest]

theorem processRecs_diags (hourly : Bool) (res : List Rec) (prev : ℚ)
    (pms : String → PowerMeter) (rows : List (List Cell)) (diags : List Rec)
    (prevF : ℚ) (pmsF : String → PowerMeter)
    (h : processRecs hourly res prev pms = some (rows, diags, prevF, pmsF))
    {rec : Rec} (hrec : rec ∈ res) {kv : String × ℚ} (hkv : kv ∈ rec)
    (hun : kv.1 ∉ knownKeys) : ∃ d ∈ diags, kv ∈ d := by
  induction res generalizing prev pms rows diags prevF pmsF with
  | nil => cases hrec
  | cons rec1 rest ih =>
    obtain ⟨r, rows1, diags1, prevF1, pmsF1, hr, hrest, hout⟩ :=
      processRecs_inv_cons _ _ _ _ _ _ h
    simp only [Prod.mk.injEq] at hout
    obtain ⟨_, h2, _, _⟩ := hout
    subst h2
    rcases List.mem_cons.mp hrec with he | hm
    · subst he
      have hkvl := processRec_leftover _ _ _ _ _ hr hkv hun
      have hne : r.leftover.isEmpty = false := by
        cases hl : r.leftover with
        | nil => rw [hl] at hkvl; cases hkvl
        | cons a b => rfl
      rw [hne]
      exact ⟨r.leftover, by simp, hkvl⟩
    · obtain ⟨d, hd, hkd⟩ := ih _ _ _ _ _ _ hrest hm
      refine ⟨d, ?_, hkd⟩
      cases r.leftover.isEmpty with
      | false => simp only [if_neg Bool.false_ne_true]; exact List.mem_cons_of_mem _ hd
      | true => simpa using hd

theorem load_day_inv (render : ℚ → String) (res : List Rec)
    (hourly tt : Bool) (dr : DayResult)
    (h : load_day render res hourly tt = some dr) :
    ∃ rows diags prevF pmsF,
      processRecs hourly res (prevInit hourly) (dayInitPMs hourly)
        = some (rows, diags, prevF, pmsF) ∧
      dr.table_headers = tableHeaders ∧
      dr.totalsRow = Cell.str "Totals" :: Cell.none ::
        headerKeys.map (fun k => Cell.str (render (pmsF k).total)) ∧
      dr.data = (if tt then [] else rows) ++ [dr.totalsRow] ∧
      dr.diags = diags ∧ dr.numRecords = rows.length ∧ dr.pmsF = pmsF := by
  simp only [load_day] at h
  split at h
  · exact Option.noConfusion h
  · rename_i quad rows diags prevF pmsF hq
    simp only [Option.some.injEq] at h
    subst h
    exact ⟨rows, diags, prevF, pmsF, hq, rfl, rfl, rfl, rfl, rfl, rfl⟩

theorem load_day_isSome (render : ℚ → String) (res : List Rec)
    (hourly tt : Bool) (hok : ∀ rec ∈ res, recOK hourly rec) :
    (load_day render res hourly tt).isSome = true := by
  have h1 := processRecs_isSome hourly res hok (prevInit hourly)
    (dayInitPMs hourly)
  cases hq : processRecs hourly res (prevInit hourly) (dayInitPMs hourly) with
  | none => rw [hq] at h1; cases h1
  | some quad =>
    obtain ⟨rows, diags, prevF, pmsF⟩ := quad
    simp [load_day, hq]

/-! ### JSON-collapse facts -/

theorem collapse_sound (hs : List String) (ts : List Cell) :
    ∀ p ∈ collapse hs ts, p.1 ≠ "Time" ∧ p.2.truthy = true := by
  induction hs generalizing ts with
  | nil => intro p hp; cases hp
  | cons head hs ih =>
    cases ts with
    | nil => intro p hp; cases hp
    | cons t ts =>
      intro p hp
      by_cases hc : t.truthy = false ∨ head = "Time"
      · rw [collapse, if_pos hc] at hp
        exact ih ts p hp
      · rw [collapse, if_neg hc] at hp
        push_neg at hc
        rcases List.mem_cons.mp hp with he | hm
        · subst he
          exact ⟨hc.2, Bool.not_eq_false _ |>.mp hc.1⟩
        · exact ih ts p hm

theorem collapse_map {α : Type} (f : α → String) (g : α → Cell) (ks : List α)
    (hf : ∀ k ∈ ks, f k ≠ "Time") :
    collapse (ks.map f) (ks.map g) =
      ks.filterMap
        (fun k => if (g k).truthy = true then some (f k, g k) else none) := by
  induction ks with
  | nil => rfl
  | cons k ks ih =>
    have hfk : f k ≠ "Time" := hf k (List.mem_cons_self k ks)
    have hrest : ∀ k2 ∈ ks, f k2 ≠ "Time" :=
      fun k2 hk2 => hf k2 (List.mem_cons_of_mem k hk2)
    cases ht : (g k).truthy with
    | false =>
      rw [List.map_cons, List.map_cons, collapse, if_pos (Or.inl ht),
        List.filterMap_cons]
      simp only [ht, Bool.false_eq_true, if_false]
      exact ih hrest
    | true =>
      have hc : ¬ ((g k).truthy = false ∨ f k = "Time") := by
        rw [ht]
        simp [hfk]
      rw [List.map_cons, List.map_cons, collapse, if_neg hc,
        List.filterMap_cons]
      simp only [ht, if_true]
      rw [ih hrest]

/-! ### Month-rollup facts -/

theorem monthRows_spec (render : ℚ → String) (hourly totals : Bool)
    (source : Day → List Rec) (base : Day) (rs : ℤ → DayResult)
    (ds : List ℤ)
    (hs : ∀ d ∈ ds, load_day render
      (source { base with tm_mday := PyVal.int d }) hourly totals
        = some (rs d)) :
    monthRows render hourly totals source base ds
      = some (ds.map (fun d => (rs d).totalsRow)) := by
  induction ds with
  | nil => rfl
  | cons d ds ih =>
    have hd := hs d (List.mem_cons_self d ds)
    have hrest := ih (fun d2 hd2 => hs d2 (List.mem_cons_of_mem d hd2))
    simp only [monthRows, hd, hrest, List.map_cons]

theorem monthDays_length (n : ℤ) : (monthDays n).length = n.toNat := by
  rw [monthDays, List.length_map, List.length_range]

theorem monthDays_get (n : ℤ) (i : ℕ) (hi : i < n.toNat) :
    (monthDays n).get? i = some (1 + (i : ℤ)) := by
  rw [monthDays, List.get?_map, List.get?_range hi]
  rfl

/-! ### Option-parsing facts -/

theorem applyOpt_use_json (st : OptState) (ov : String × String) :
    (applyOpt st ov).use_json
      = if ov.1 = "--json" then true else st.use_json := by
  unfold applyOpt
  split_ifs with h1 h2 h3 h4 h5 h6 h7 <;> simp_all

theorem applyOpt_show_month (st : OptState) (ov : String × String) :
    (applyOpt st ov).show_month
      = if ov.1 = "--show-month" then true else st.show_month := by
  unfold applyOpt
  split_ifs with h1 h2 h3 h4 h5 h6 h7 <;> simp_all

theorem applyOpt_tm_mday (st : OptState) (ov : String × String) :
    (applyOpt st ov).day.tm_mday
      = if ov.1 = "--day" then PyVal.str ov.2 else st.day.tm_mday := by
  unfold applyOpt
  split_ifs with h1 h2 h3 h4 h5 h6 h7 <;> simp_all

theorem foldl_use_json (opts : List (String × String)) :
    ∀ st : OptState, (opts.foldl applyOpt st).use_json
      = (st.use_json || opts.any (fun ov => ov.1 == "--json")) := by
  induction opts with
  | nil => intro st; simp
  | cons ov opts ih =>
    intro st
    rw [List.foldl_cons, ih, List.any_cons, applyOpt_use_json]
    by_cases h : ov.1 = "--json"
    · simp [h]
    · simp only [if_neg h]
      have hb : (ov.1 == "--json") = false := by
        simpa using h
      rw [hb, Bool.false_or]

theorem foldl_show_month (opts : List (String × String)) :
    ∀ st : OptState, (opts.foldl applyOpt st).show_month
      = (st.show_month || opts.any (fun ov => ov.1 == "--show-month")) := by
  induction opts with
  | nil => intro st; simp
  | cons ov opts ih =>
    intro st
    rw [List.foldl_cons, ih, List.any_cons, applyOpt_show_month]
    by_cases h : ov.1 = "--show-month"
    · simp [h]
    · simp only [if_neg h]
      have hb : (ov.1 == "--show-month") = false := by
        simpa using h
      rw [hb, Bool.false_or]

theorem foldl_tm_mday_const (opts : List (String × String))
    (h : "--day" ∉ opts.map Prod.fst) :
    ∀ st : OptState, (opts.foldl applyOpt st).day.tm_mday
      = st.day.tm_mday := by
  induction opts with
  | nil => intro st; rfl
  | cons ov opts ih =>
    intro st
    have h1 : ov.1 ≠ "--day" := by
      intro he
      exact h (by simp [← he])
    have h2 : "--day" ∉ opts.map Prod.fst := by
      intro hm
      exact h (List.mem_cons_of_mem _ hm)
    rw [List.foldl_cons, ih h2, applyOpt_tm_mday, if_neg h1]

theorem foldl_tm_mday_str (opts : List (String × String))
    (h : "--day" ∈ opts.map Prod.fst) :
    ∀ st : OptState, ∃ s : String,
      (opts.foldl applyOpt st).day.tm_mday = PyVal.str s := by
  induction opts with
  | nil => cases h
  | cons ov opts ih =>
    intro st
    by_cases hrest : "--day" ∈ opts.map Prod.fst
    · exact ih hrest (applyOpt st ov)
    · have hov : ov.1 = "--day" := by
        rw [List.map_cons, List.mem_cons] at h
        rcases h with he | hm
        · exact he.symm
        · exact absurd hm hrest
      refine ⟨ov.2, ?_⟩
      rw [List.foldl_cons, foldl_tm_mday_const opts hrest, applyOpt_tm_mday,
        if_pos hov]

/-! ### Conversion and dispatch auxiliaries -/

theorem convWatts_isSome_inv (hourly : Bool) (volts v w : ℚ)
    (h : convWatts hourly volts v = some w) : hourly = true ∨ volts ≠ 0 := by
  cases hourly with
  | true => exact Or.inl rfl
  | false =>
    refine Or.inr ?_
    intro hv
    rw [convWatts, if_neg (by simp), if_pos hv] at h
    exact Option.noConfusion h

theorem convWatts_total (hourly : Bool) (volts v : ℚ)
    (h : hourly = true ∨ volts ≠ 0) :
    ∃ w, convWatts hourly volts v = some w := by
  cases hourly with
  | true => exact ⟨v / (60 * 60), rfl⟩
  | false =>
    rcases h with h | h
    · cases h
    · exact ⟨v / volts * 4, by rw [convWatts, if_neg (by simp), if_neg h]⟩

theorem chanLoop_volts (hourly : Bool) (volts t : ℚ) (ks : List String)
    (pms : String → PowerMeter) (rec : Rec) (cells : List Cell)
    (pms2 : String → PowerMeter) (rec2 : Rec)
    (h : chanLoop hourly volts t ks pms rec = some (cells, pms2, rec2))
    (key : String) (hk : key ∈ ks) (v : ℚ)
    (hv : assocFind rec key = some v) (hnd : ks.Nodup) :
    hourly = true ∨ volts ≠ 0 := by
  induction ks generalizing pms rec cells with
  | nil => cases hk
  | cons k ks ih =>
    obtain ⟨hknotin, hndk⟩ := List.nodup_cons.mp hnd
    rcases List.mem_cons.mp hk with he | hm
    · subst he
      rcases chanLoop_inv _ _ _ _ _ _ _ _ _ _ h with
        ⟨v1, w1, cells1, hf1, hw1, hc, hcc⟩ | ⟨cells1, hf1, hc, hcc⟩
      · exact convWatts_isSome_inv _ _ _ _ hw1
      · rw [hv] at hf1
        cases hf1
    · have hkk : key ≠ k := fun he => hknotin (he ▸ hm)
      rcases chanLoop_inv _ _ _ _ _ _ _ _ _ _ h with
        ⟨v1, w1, cells1, hf1, hw1, hc, hcc⟩ | ⟨cells1, hf1, hc, hcc⟩
      · have hv2 : assocFind (pyErase rec k) key = some v := by
          rw [assocFind_pyErase_ne rec hkk]
          exact hv
        exact ih _ _ _ hc hm hv2 hndk
      · exact ih _ _ _ hc hm hv hndk

theorem processRec_volts (hourly : Bool) (prev : ℚ)
    (pms : String → PowerMeter) (rec0 : Rec) (r : RecResult)
    (key : String) (v : ℚ)
    (h : processRec hourly prev pms rec0 = some r)
    (hk : key ∈ headerKeys) (hv : assocFind rec0 key = some v) :
    hourly = true ∨ effVolts rec0 ≠ 0 := by
  obtain ⟨p, cells, rec7, hp, hc, hrow, hleft, ht⟩ :=
    processRec_inv _ _ _ _ _ h
  obtain ⟨_, _, hvolts, hfind, _⟩ := preNormalize_spec rec0 p hp
  have hv2 : assocFind p.rest key = some v := by
    rw [hfind key (headerKeys_not_book key hk)]
    exact hv
  have := chanLoop_volts _ _ _ _ _ _ _ _ _ hc key hk v hv2 (by decide)
  rw [hvolts] at this
  exact this

theorem applyOpt_hourly_comm (st : OptState) (b : Bool)
    (ov : String × String) :
    applyOpt { st with hourly := b } ov
      = { applyOpt st ov with
          hourly := (applyOpt { st with hourly := b } ov).hourly } := by
  unfold applyOpt
  split_ifs <;> rfl

theorem foldl_day_hourly (opts : List (String × String)) :
    ∀ (st : OptState) (b : Bool),
      (opts.foldl applyOpt { st with hourly := b }).day
        = (opts.foldl applyOpt st).day := by
  induction opts with
  | nil => intro st b; rfl
  | cons ov opts ih =>
    intro st b
    rw [List.foldl_cons, List.foldl_cons, applyOpt_hourly_comm]
    exact ih (applyOpt st ov) _

theorem parseOpts_use_json_of_mem (today : Day)
    (opts : List (String × String))
    (h : "--json" ∈ opts.map Prod.fst) :
    (parseOpts today opts).use_json = true := by
  rw [parseOpts, foldl_use_json]
  obtain ⟨ov, hov, hfst⟩ := List.mem_map.mp h
  have : opts.any (fun ov => ov.1 == "--json") = true :=
    List.any_eq_true.mpr ⟨ov, hov, by simpa using hfst⟩
  rw [this, Bool.or_true]

theorem parseOpts_no_json (today : Day) (opts : List (String × String))
    (h : "--json" ∉ opts.map Prod.fst) :
    (parseOpts today opts).use_json = false := by
  rw [parseOpts, foldl_use_json]
  have : opts.any (fun ov => ov.1 == "--json") = false := by
    rw [← Bool.not_eq_true, List.any_eq_true]
    rintro ⟨ov, hov, hfst⟩
    exact h (List.mem_map.mpr ⟨ov, hov, by simpa using hfst⟩)
  rw [this, Bool.or_false]

theorem parseOpts_show_month_of_mem (today : Day)
    (opts : List (String × String))
    (h : "--show-month" ∈ opts.map Prod.fst) :
    (parseOpts today opts).show_month = true := by
  rw [parseOpts, foldl_show_month]
  obtain ⟨ov, hov, hfst⟩ := List.mem_map.mp h
  have : opts.any (fun ov => ov.1 == "--show-month") = true :=
    List.any_eq_true.mpr ⟨ov, hov, by simpa using hfst⟩
  rw [this, Bool.or_true]

theorem parseOpts_tm_mday_str (today : Day) (opts : List (String × String))
    (h : "--day" ∈ opts.map Prod.fst) :
    ∃ s, (parseOpts today opts).day.tm_mday = PyVal.str s := by
  rw [parseOpts]
  exact foldl_tm_mday_str opts h _

/-! ### The claims -/

/-- C2: if the sample source yields zero records for a day, `load_day`
returns a result (not an error) whose table consists of exactly one row, the
totals row, and every channel accumulator's total is zero. -/
theorem c2_empty_day (render : ℚ → String) (hourly totalsOnly : Bool) :
    ∃ dr, load_day render [] hourly totalsOnly = some dr ∧
      dr.data = [dr.totalsRow] ∧ dr.numRecords = 0 ∧
      ∀ k ∈ headerKeys, (dr.pmsF k).total = 0 := by
  refine ⟨_, rfl, ?_, rfl, ?_⟩
  · show (if totalsOnly then ([] : List (List Cell)) else []) ++ _ = _
    cases totalsOnly <;> rfl
  · intro k _
    show (dayInitPMs hourly k).total = 0
    simp [dayInitPMs, PowerMeter.init, PowerMeter.add_value]

/-- C3: every channel accumulator is seeded with one zero-power sample at the
synthetic timestamp −3600 (hourly) / −60 (per-minute), and the first real
sample's duration cell is computed against that seeded timestamp, yielding the
sample's time of day plus one full slot rather than a spurious gap. -/
theorem c3_seed_and_first_duration (render : ℚ → String) (b : Bool)
    (rec : Rec) (rest : List Rec)
    (hs : (load_day render (rec :: rest) b false).isSome = true) :
    (∀ key : String, dayInitPMs b key
        = { total := 0, lastTime := prevInit b }) ∧
    prevInit b = (if b then -(60 * 60 : ℚ) else -60) ∧
    firstRowDur (load_day render (rec :: rest) b false)
      = some (Cell.dur (sampleTimeOf rec - prevInit b)) ∧
    sampleTimeOf rec - prevInit b
      = sampleTimeOf rec + (if b then (60 * 60 : ℚ) else 60) := by
  refine ⟨?_, rfl, ?_, ?_⟩
  · intro key
    simp [dayInitPMs, PowerMeter.init, PowerMeter.add_value]
  · cases hd : load_day render (rec :: rest) b false with
    | none => rw [hd] at hs; cases hs
    | some dr =>
      obtain ⟨rows, diags, prevF, pmsF, hq, hth, htr, hdata, _, _, _⟩ :=
        load_day_inv _ _ _ _ _ hd
      obtain ⟨r, rows1, diags1, prevF1, pmsF1, hr, hrest, hout⟩ :=
        processRecs_inv_cons _ _ _ _ _ _ hq
      simp only [Prod.mk.injEq] at hout
      obtain ⟨h1, _, _⟩ := hout
      have hdata0 : dr.data.get? 0 = some r.row := by
        rw [hdata, h1]
        simp
      simp only [firstRowDur, hdata0]
      exact processRec_dur _ _ _ _ _ hr
  · cases b <;> simp [prevInit]

/-- C8: for a per-minute record with a present channel, the displayed cell is
`int(watts)` (truncation toward zero) while the accumulator receives the
un-truncated watts, so the meter total advances by the full-precision value
rather than the displayed integer. -/
theorem c8_truncated_display_full_accumulator (prev : ℚ)
    (pms : String → PowerMeter) (rec0 : Rec) (r : RecResult)
    (i : ℕ) (key : String) (v : ℚ)
    (h : processRec false prev pms rec0 = some r)
    (hik : headerKeys.get? i = some key)
    (hv : assocFind rec0 key = some v)
    (hvolts : effVolts rec0 ≠ 0) :
    r.row.get? (i + 2)
      = some (Cell.int (pyInt (v / effVolts rec0 * 4))) ∧
    r.pms key
      = (pms key).add_value (v / effVolts rec0 * 4) (sampleTimeOf rec0) ∧
    (r.pms key).total = (pms key).total
      + (v / effVolts rec0 * 4) * (sampleTimeOf rec0 - (pms key).lastTime) := by
  have hw : convWatts false (effVolts rec0) v
      = some (v / effVolts rec0 * 4) := by
    rw [convWatts, if_neg (by simp), if_neg hvolts]
  have hp := processRec_present false prev pms rec0 r i key v _ h hik hv hw
  exact ⟨hp.1, hp.2, by rw [hp.2, PowerMeter.add_value]⟩

/-- C8 witness: `perMinRec` has `imp = 40` and default voltage 1, so the
displayed cell truncates `160` (here exactly) while the meter gets the full
watts; instantiates the theorem at a concrete record. -/
theorem c8_witness :
    rW8.row.get? 2 = some (Cell.int (pyInt (40 / effVolts perMinRec * 4))) ∧
    rW8.pms "imp" = (dayInitPMs false "imp").add_value
      (40 / effVolts perMinRec * 4) (sampleTimeOf perMinRec) := by
  have h := c8_truncated_display_full_accumulator (prevInit false)
    (dayInitPMs false) perMinRec rW8 0 "imp" 40
    (Option.some_get _).symm rfl rfl (by decide)
  exact ⟨h.1, h.2.1⟩

/-- C3 witness: a one-record hourly day whose sample is at 00:00; the first
row's duration is the sample time minus the −3600 seed, a full hour slot. -/
theorem c3_witness :
    firstRowDur (load_day renderW [c1Rec] true false)
      = some (Cell.dur (sampleTimeOf c1Rec - prevInit true)) ∧
    sampleTimeOf c1Rec - prevInit true
      = sampleTimeOf c1Rec + (if true then (60 * 60 : ℚ) else 60) := by
  have h := c3_seed_and_first_duration renderW true c1Rec [] (by rfl)
  exact ⟨h.2.2.1, h.2.2.2⟩

/-- C6: a secondary sub-metered field (`nect1` paired with `imp`, `pect1`
paired with `exp`) is dropped exactly when its value equals the canonical
channel's value, the canonical channel's value is unchanged by the drop, and
the output row's cell for the canonical channel is computed from that raw
value. -/
theorem c6_duplicate_secondary_drop (canon second : String)
    (hpair : (canon, second) = ("imp", "nect1")
      ∨ (canon, second) = ("exp", "pect1"))
    (rec : Rec) (a b : ℚ)
    (ha : assocFind rec canon = some a)
    (hb : assocFind rec second = some b) :
    (assocFind (dropDup canon second rec) second
        = if a = b then none else some b) ∧
    assocFind (dropDup canon second rec) canon = some a ∧
    (∀ (hourly : Bool) (prev : ℚ) (pms : String → PowerMeter)
        (r : RecResult) (i : ℕ) (w : ℚ),
      processRec hourly prev pms rec = some r →
      headerKeys.get? i = some canon →
      convWatts hourly (effVolts rec) a = some w →
      r.row.get? (i + 2) = some (Cell.int (pyInt w))) := by
  have hcs : canon ≠ second := by
    rcases hpair with h | h <;>
      (rw [Prod.mk.injEq] at h; rw [h.1, h.2]; decide)
  refine ⟨?_, ?_, ?_⟩
  · simp only [dropDup, ha, hb]
    by_cases hab : a = b
    · simp [hab, assocFind_pyErase_self]
    · simp [hab, hb]
  · simp only [dropDup, ha, hb]
    by_cases hab : a = b
    · rw [if_pos hab, assocFind_pyErase_ne rec hcs]
      exact ha
    · rw [if_neg hab]
      exact ha
  · intro hourly prev pms r i w h hik hw
    exact (processRec_present hourly prev pms rec r i canon a w h hik ha hw).1

/-- C6 witness: `dupRec` has `imp = nect1 = 40`; the secondary field is
dropped and the canonical lookup is unchanged. -/
theorem c6_witness :
    (assocFind (dropDup "imp" "nect1" dupRec) "nect1"
        = if (40 : ℚ) = 40 then none else some 40) ∧
    assocFind (dropDup "imp" "nect1" dupRec) "imp" = some 40 := by
  have h := c6_duplicate_secondary_drop "imp" "nect1" (Or.inl rfl)
    dupRec 40 40 rfl rfl
  exact ⟨h.1, h.2.1⟩

/-- C1 counterexample: the claim says the row value IS the average watts
`value / 3600`; on the hourly record `c1Rec` with `imp = 1800` the code
displays `int(1800 / 3600) = int(0.5) = 0`, and that integer differs from the
claimed average watts `1800 / 3600 = 0.5`, so the claim as stated is false. -/
theorem c1_counterexample :
    (processRec true (prevInit true) (dayInitPMs true) c1Rec).map
        (fun r => r.row.get? 2)
      = some (some (Cell.int (pyInt (1800 / (60 * 60))))) ∧
    ((pyInt (1800 / (60 * 60)) : ℚ) ≠ 1800 / (60 * 60)) := by
  constructor
  · rfl
  · norm_num [pyInt]

/-- C1 (amended): for every channel key present in a processed record, the
row value is `int(watts)` — the average watts truncated toward zero — where
watts is `value / 3600` (hourly) or `value / voltage * 4` (per-minute,
voltage = `v1 / 10` when present, else 1, as packaged by `convWatts`), and
the accumulator receives the un-truncated watts; a key absent from the record
contributes 0 watts to its accumulator and a null row value. -/
theorem c1_row_values (hourly : Bool) (prev : ℚ) (pms : String → PowerMeter)
    (rec0 : Rec) (r : RecResult) (i : ℕ) (key : String)
    (h : processRec hourly prev pms rec0 = some r)
    (hik : headerKeys.get? i = some key) :
    (∀ v, assocFind rec0 key = some v →
      ∃ w, convWatts hourly (effVolts rec0) v = some w ∧
        r.row.get? (i + 2) = some (Cell.int (pyInt w)) ∧
        r.pms key = (pms key).add_value w (sampleTimeOf rec0)) ∧
    (assocFind rec0 key = none →
      r.row.get? (i + 2) = some Cell.none ∧
      r.pms key = (pms key).add_value 0 (sampleTimeOf rec0)) := by
  constructor
  · intro v hv
    have hvk : key ∈ headerKeys := List.get?_mem hik
    obtain ⟨w, hw⟩ := convWatts_total hourly (effVolts rec0) v
      (processRec_volts hourly prev pms rec0 r key v h hvk hv)
    have hp := processRec_present hourly prev pms rec0 r i key v w h hik hv hw
    exact ⟨w, hw, hp.1, hp.2⟩
  · intro hv
    exact processRec_absent hourly prev pms rec0 r i key h hik hv

/-- C1 witness: the amended claim at the hourly record `c1Rec` with
`imp = 1800`: the displayed cell is the truncation of `1800 / 3600` and the
meter receives the un-truncated value. -/
theorem c1_witness :
    rW1.row.get? 2 = some (Cell.int (pyInt (1800 / (60 * 60)))) ∧
    rW1.pms "imp" = (dayInitPMs true "imp").add_value (1800 / (60 * 60))
      (sampleTimeOf c1Rec) := by
  obtain ⟨w, hw, h1, h2⟩ :=
    (c1_row_values true (prevInit true) (dayInitPMs true) c1Rec rW1 0 "imp"
      (Option.some_get _).symm rfl).1 1800 rfl
  have hconv : convWatts true (effVolts c1Rec) 1800
      = some ((1800 : ℚ) / (60 * 60)) := rfl
  have hww : w = (1800 : ℚ) / (60 * 60) := Option.some.inj (hw.symm.trans hconv)
  subst hww
  exact ⟨h1, h2⟩

/-- C5: for records whose mandatory calendar fields are present (and whose
voltage is nonzero when per-minute), `load_day` processes every record —
the run is not aborted, `num_records` equals the number of raw records — and
every field with an unrecognized key survives to the record's leftover, which
is emitted among the diagnostics rather than silently dropped. -/
theorem c5_unrecognized_diagnostics (render : ℚ → String) (res : List Rec)
    (hourly totalsOnly : Bool)
    (hok : ∀ rec ∈ res, recOK hourly rec) :
    (load_day render res hourly totalsOnly).map (fun dr => dr.numRecords)
      = some res.length ∧
    (∀ dr, load_day render res hourly totalsOnly = some dr →
      ∀ rec ∈ res, ∀ kv ∈ rec, kv.1 ∉ knownKeys →
        ∃ d ∈ dr.diags, kv ∈ d) := by
  have hsome := load_day_isSome render res hourly totalsOnly hok
  cases hd : load_day render res hourly totalsOnly with
  | none => rw [hd] at hsome; cases hsome
  | some dr =>
    obtain ⟨rows, diags, prevF, pmsF, hq, _, _, _, hdiags, hnum, _⟩ :=
      load_day_inv _ _ _ _ _ hd
    constructor
    · show some dr.numRecords = some res.length
      rw [hnum, processRecs_length _ _ _ _ _ _ _ _ hq]
    · intro dr2 hdr2 rec hrec kv hkv hun
      cases hdr2
      rw [hdiags]
      exact processRecs_diags _ _ _ _ _ _ _ _ hq hrec hkv hun

/-- C5 witness: `diagRec` carries the unrecognized field `zzz`; the one-record
per-minute day is fully processed (one record counted, no abort). -/
theorem c5_witness :
    (load_day renderW [diagRec] false false).map (fun dr => dr.numRecords)
      = some [diagRec].length :=
  (c5_unrecognized_diagnostics renderW [diagRec] false false
    (by
      intro rec hrec
      rw [List.mem_singleton] at hrec
      subst hrec
      exact ⟨by decide, Or.inr (by decide)⟩)).1

/-- C4: the JSON collapse of a day's totals row is exactly the flat mapping
from channel display name to rendered total restricted to channels whose
rendered total is truthy (falsy/absent ones are omitted), and no entry ever
carries the `Time` key (every kept value is truthy). -/
theorem c4_json_collapse (render : ℚ → String) (res : List Rec)
    (dr : DayResult) (h : load_day render res true true = some dr) :
    collapse dr.table_headers dr.totalsRow
      = headerKeys.filterMap (fun k =>
          if (Cell.str (render ((dr.pmsF k).total))).truthy = true
          then some (displayName k, Cell.str (render ((dr.pmsF k).total)))
          else none) ∧
    (∀ p ∈ collapse dr.table_headers dr.totalsRow,
      p.1 ≠ "Time" ∧ p.2.truthy = true) := by
  obtain ⟨rows, diags, prevF, pmsF, hq, hth, htr, _, _, _, hpms⟩ :=
    load_day_inv _ _ _ _ _ h
  constructor
  · rw [hth, htr, hpms, tableHeaders]
    rw [collapse, if_pos (Or.inr rfl)]
    rw [collapse, if_pos (Or.inl (show Cell.none.truthy = false from rfl))]
    exact collapse_map displayName _ headerKeys (by decide)
  · intro p hp
    exact collapse_sound _ _ p hp

/-- C4 witness: the empty JSON-mode day; the collapse of its totals row is
the filtered display-name mapping. -/
theorem c4_witness :
    collapse drW4.table_headers drW4.totalsRow
      = headerKeys.filterMap (fun k =>
          if (Cell.str (renderW ((drW4.pmsF k).total))).truthy = true
          then some (displayName k, Cell.str (renderW ((drW4.pmsF k).total)))
          else none) :=
  (c4_json_collapse renderW [] drW4 (Option.some_get _).symm).1

/-- C7: in month-rollup mode (no JSON, `show_month`, integer
`tm_mday = n ≥ 1`), the dispatch invokes the per-day report exactly once per
day, for days 1 through n in ascending order (`monthDays n` lists `1, …, n`),
and collects each day's totals row into one multi-row table. -/
theorem c7_month_rollup (render : ℚ → String) (st : OptState)
    (source : Day → List Rec) (n : ℤ) (rs : ℤ → DayResult)
    (hjson : st.use_json = false) (hmonth : st.show_month = true)
    (hmday : st.day.tm_mday = PyVal.int n) (hn : 1 ≤ n)
    (hs : ∀ d ∈ monthDays n,
      load_day render (source { st.day with tm_mday := PyVal.int d })
        st.hourly st.totals = some (rs d)) :
    zappiDispatch render st source
      = some (ZOut.month ((monthDays n).map (fun d => (rs d).totalsRow))) ∧
    (monthDays n).length = n.toNat ∧
    (∀ i : ℕ, i < n.toNat → (monthDays n).get? i = some (1 + (i : ℤ))) := by
  refine ⟨?_, monthDays_length n, fun i hi => monthDays_get n i hi⟩
  have hrows := monthRows_spec render st.hourly st.totals source st.day rs
    (monthDays n) hs
  simp only [zappiDispatch, hjson, hmonth, hmday, Bool.false_eq_true,
    if_false, if_true, show ¬ n < 1 by omega, hrows, Option.map_some]
  rfl

/-- C7 witness: month mode up to day 2 over an empty sample source; the
rollup is the two totals rows for days 1 and 2. -/
theorem c7_witness :
    zappiDispatch renderW stW7 sourceW
      = some (ZOut.month ((monthDays 2).map (fun d => (rsW7 d).totalsRow))) :=
  (c7_month_rollup renderW stW7 sourceW 2 rsW7 rfl rfl rfl (by decide)
    (fun d _ => rfl)).1

/-- C9: when `--json` is among the options, the dispatch calls `load_day`
with granularity and totals-only both the literal `True`, regardless of the
other options; in particular prepending `--per-minute` leaves the JSON-mode
outcome unchanged. -/
theorem c9_json_literal_flags (render : ℚ → String) (today : Day)
    (opts : List (String × String)) (source : Day → List Rec)
    (h : "--json" ∈ opts.map Prod.fst) :
    zappiDispatch render (parseOpts today opts) source
      = (load_day render (source (parseOpts today opts).day) true true).map
          (fun r => ZOut.json (collapse r.table_headers r.totalsRow)) ∧
    zappiDispatch render (parseOpts today (("--per-minute", "") :: opts))
        source
      = zappiDispatch render (parseOpts today opts) source := by
  have hj1 := parseOpts_use_json_of_mem today opts h
  have hj2 : (parseOpts today
      (("--per-minute", "") :: opts)).use_json = true := by
    refine parseOpts_use_json_of_mem today _ ?_
    rw [List.map_cons]
    exact List.mem_cons_of_mem _ h
  have hday : (parseOpts today (("--per-minute", "") :: opts)).day
      = (parseOpts today opts).day := by
    rw [parseOpts, parseOpts, List.foldl_cons]
    exact foldl_day_hourly opts _ false
  constructor
  · simp only [zappiDispatch, hj1, if_true]
  · simp only [zappiDispatch, hj1, hj2, if_true, hday]

/-- C9 witness: `--json --per-minute` on the command line still yields the
hourly, totals-only JSON call. -/
theorem c9_witness :
    zappiDispatch renderW (parseOpts todayW optsW9) sourceW
      = (load_day renderW (sourceW (parseOpts todayW optsW9).day) true
          true).map
          (fun r => ZOut.json (collapse r.table_headers r.totalsRow)) :=
  (c9_json_literal_flags renderW todayW optsW9 sourceW (by decide)).1

/-- C10: with `--day` (which stores the raw string option value into
`tm_mday`) together with `--show-month` and without `--json`, the month
branch evaluates `day.tm_mday + 1` on a string and the run aborts with a
`TypeError` (modelled as `none`) before any month table is produced. -/
theorem c10_day_string_aborts_month (render : ℚ → String) (today : Day)
    (opts : List (String × String)) (source : Day → List Rec)
    (hd : "--day" ∈ opts.map Prod.fst)
    (hm : "--show-month" ∈ opts.map Prod.fst)
    (hj : "--json" ∉ opts.map Prod.fst) :
    zappiDispatch render (parseOpts today opts) source = none := by
  have hjson := parseOpts_no_json today opts hj
  have hmonth := parseOpts_show_month_of_mem today opts hm
  obtain ⟨s, hs⟩ := parseOpts_tm_mday_str today opts hd
  simp only [zappiDispatch, hjson, hmonth, hs, Bool.false_eq_true, if_false,
    if_true]

/-- C10 witness: `--day 5 --show-month` aborts before producing any table. -/
theorem c10_witness :
    zappiDispatch renderW (parseOpts todayW optsW10) sourceW = none :=
  c10_day_string_aborts_month renderW todayW optsW10 sourceW
    (by decide) (by decide) (by decide)
